import Mathlib

/-!
Verification of the session-manager TUI
(src/claude-session-tui/python/claude_manager_tui_typed.py) against its
design specification.

Modelling conventions:
* Python strings are modeled as `List Char`; the Python character classes
  `\s` and `\d` are modeled on the ASCII range (every input the tool ever
  sees is ASCII; the Unicode extension of `\s` is irrelevant to the claims).
* External collaborators (the `cm` subprocess, the filesystem, the `json`
  and `datetime` libraries) are modeled as explicit oracles passed in as
  arguments, exactly at the boundary where the source calls them.
* Fallible Python code returning `Result` is modeled with `Except`.
-/

/-- Python's `\s` on the ASCII range (space, tab, newline, carriage return,
vertical tab, form feed). -/
def isPySpace (c : Char) : Bool :=
  c = ' ' || c = '\t' || c = '\n' || c = '\r' || c = '\x0b' || c = '\x0c'

/-- Python's `\d` on the ASCII range. -/
def isPyDigit (c : Char) : Bool :=
  '0' ≤ c && c ≤ '9'

/-- Value of a decimal digit string, as computed by Python's `int` on a
string of digits. -/
def digitsToNat (ds : List Char) : Nat :=
  ds.foldl (fun acc c => acc * 10 + (c.toNat - '0'.toNat)) 0

/-- The part of the regex `\s*([^\s]+)\s*\(\s*(\d+)\s+sessions?\)` that
follows the literal `(`: skip whitespace, read the (forced maximal) digit
group, require at least one whitespace, then the literal `session` with an
optional `s` and a `)`.  The pattern is not right-anchored (`re.match`),
so arbitrary trailing text is accepted. -/
def matchCountSuffix (s : List Char) : Option Nat :=
  let s1 := s.dropWhile isPySpace
  let ds := s1.takeWhile isPyDigit
  if ds.isEmpty then none
  else
    match s1.drop ds.length with
    | [] => none
    | c :: rest =>
      if isPySpace c then
        let s3 := (c :: rest).dropWhile isPySpace
        if ("sessions)".data).isPrefixOf s3 || ("session)".data).isPrefixOf s3 then
          some (digitsToNat ds)
        else none
      else none

/-- After a name candidate: `\s*\(` (the whitespace is forced maximal since
`(` is not a space) and then the count suffix. -/
def matchAfterName (s : List Char) : Option Nat :=
  match s.dropWhile isPySpace with
  | [] => none
  | c :: rest => if c = '(' then matchCountSuffix rest else none

/-- Backtracking of the greedy group `([^\s]+)`: the group can only match a
non-empty prefix of the maximal non-whitespace run starting at the name
position, and Python tries the longest prefix first. -/
def tryNames (run rest : List Char) : Nat → Option (List Char × Nat)
  | 0 => none
  | k + 1 =>
    match matchAfterName (run.drop (k + 1) ++ rest) with
    | some n => some (run.take (k + 1), n)
    | none => tryNames run rest k

/-- `re.match(r'\s*([^\s]+)\s*\(\s*(\d+)\s+sessions?\)', line)` together
with the extraction of the two groups, as used by
`ClaudeManager._parse_session_line`.  The leading `\s*` is forced maximal
because `[^\s]+` cannot start with a space. -/
def parseSessionLine (line : List Char) : Option (List Char × Nat) :=
  let s := line.dropWhile isPySpace
  let run := s.takeWhile (fun c => !isPySpace c)
  if run.isEmpty then none
  else tryNames run (s.drop run.length) run.length

/-- The exact line shape stated by the spec (section 4.2) and by claim C1:
optional leading whitespace, a non-whitespace name, whitespace, `(`,
whitespace, digits, whitespace, `session` with optional `s`, `)` — and
nothing after the `)`.  This is the spec-side definition used to compare
the claimed grammar with the implemented parser. -/
def specLineShape (line name : List Char) (count : Nat) : Prop :=
  ∃ w1 w2 w3 ds w4 pl,
    (∀ c ∈ w1, isPySpace c = true) ∧
    name ≠ [] ∧ (∀ c ∈ name, isPySpace c = false) ∧
    w2 ≠ [] ∧ (∀ c ∈ w2, isPySpace c = true) ∧
    (∀ c ∈ w3, isPySpace c = true) ∧
    ds ≠ [] ∧ (∀ c ∈ ds, isPyDigit c = true) ∧
    w4 ≠ [] ∧ (∀ c ∈ w4, isPySpace c = true) ∧
    (pl = [] ∨ pl = ['s']) ∧
    count = digitsToNat ds ∧
    line = w1 ++ (name ++ (w2 ++ '(' :: (w3 ++ (ds ++ (w4 ++ (("session".data) ++ (pl ++ [')'])))))))

-- Helper list lemmas for the parser proofs.

theorem dropWhile_all_append {p : Char → Bool} {w t : List Char}
    (h : ∀ c ∈ w, p c = true) (ht : t.dropWhile p = t) :
    (w ++ t).dropWhile p = t := by
  induction w with
  | nil => simpa using ht
  | cons c cs ih =>
    simp only [List.cons_append, List.dropWhile_cons, h c (by simp)]
    exact ih (fun x hx => h x (by simp [hx]))

theorem dropWhile_cons_of_neg {p : Char → Bool} {c : Char} {t : List Char}
    (h : p c = false) : (c :: t).dropWhile p = c :: t := by
  simp [List.dropWhile_cons, h]

theorem takeWhile_all_append {p : Char → Bool} {w t : List Char}
    (h : ∀ x ∈ w, p x = true) (ht : t.takeWhile p = []) :
    (w ++ t).takeWhile p = w := by
  induction w with
  | nil => simpa using ht
  | cons a as ih =>
    simp only [List.cons_append, List.takeWhile_cons, h a (by simp)]
    simp [ih (fun x hx => h x (by simp [hx]))]

/-- A digit is not a Python whitespace character. -/
theorem isPySpace_of_isPyDigit {c : Char} (h : isPyDigit c = true) :
    isPySpace c = false := by
  cases hq : isPySpace c
  · rfl
  · simp only [isPySpace, Bool.or_eq_true, decide_eq_true_eq] at hq
    simp only [isPyDigit, Bool.and_eq_true, decide_eq_true_eq] at h
    rcases hq with ((((h1 | h1) | h1) | h1) | h1) | h1 <;>
      · subst h1; revert h; decide

/-- `matchCountSuffix` only looks at its input through an initial
whitespace skip. -/
theorem matchCountSuffix_congr {s t : List Char}
    (h : s.dropWhile isPySpace = t.dropWhile isPySpace) :
    matchCountSuffix s = matchCountSuffix t := by
  unfold matchCountSuffix
  rw [h]

/-- `parseSessionLine` only looks at its input through an initial
whitespace skip. -/
theorem parseSessionLine_congr {s t : List Char}
    (h : s.dropWhile isPySpace = t.dropWhile isPySpace) :
    parseSessionLine s = parseSessionLine t := by
  unfold parseSessionLine
  rw [h]

theorem tryNames_succ (run rest : List Char) (k : Nat) :
    tryNames run rest (k + 1) =
      match matchAfterName (run.drop (k + 1) ++ rest) with
      | some n => some (run.take (k + 1), n)
      | none => tryNames run rest k := rfl

theorem matchCountSuffix_spec (w3 : List Char) (d0 : Char) (ds' : List Char)
    (c4 : Char) (w4 pl suffix : List Char)
    (h3 : ∀ c ∈ w3, isPySpace c = true)
    (hda : ∀ c ∈ d0 :: ds', isPyDigit c = true)
    (hc4 : isPySpace c4 = true) (h4a : ∀ c ∈ w4, isPySpace c = true)
    (hp : pl = [] ∨ pl = ['s']) :
    matchCountSuffix
      (w3 ++ (d0 :: (ds' ++ (c4 :: (w4 ++ (("session".data) ++ (pl ++ ')' :: suffix))))))) =
      some (digitsToNat (d0 :: ds')) := by
  have hd0 : isPySpace d0 = false := isPySpace_of_isPyDigit (hda d0 (by simp))
  -- strip the leading whitespace run w3
  have hcongr : matchCountSuffix
      (w3 ++ (d0 :: (ds' ++ (c4 :: (w4 ++ (("session".data) ++ (pl ++ ')' :: suffix))))))) =
      matchCountSuffix
      (d0 :: (ds' ++ (c4 :: (w4 ++ (("session".data) ++ (pl ++ ')' :: suffix)))))) := by
    apply matchCountSuffix_congr
    rw [dropWhile_all_append h3 (dropWhile_cons_of_neg hd0), dropWhile_cons_of_neg hd0]
  rw [hcongr]
  unfold matchCountSuffix
  simp only [dropWhile_cons_of_neg hd0]
  have htw : (d0 :: (ds' ++ (c4 :: (w4 ++ (("session".data) ++
      (pl ++ ')' :: suffix)))))).takeWhile isPyDigit = d0 :: ds' := by
    show ((d0 :: ds') ++ (c4 :: (w4 ++ (("session".data) ++
      (pl ++ ')' :: suffix))))).takeWhile isPyDigit = d0 :: ds'
    refine takeWhile_all_append hda ?_
    have : isPyDigit c4 = false := by
      cases hq : isPyDigit c4
      · rfl
      · rw [isPySpace_of_isPyDigit hq] at hc4
        exact absurd hc4 (by simp)
    simp [List.takeWhile_cons, this]
  rw [htw]
  simp only [List.isEmpty_cons, Bool.false_eq_true, if_false]
  have hdrop : (d0 :: (ds' ++ (c4 :: (w4 ++ (("session".data) ++
      (pl ++ ')' :: suffix)))))).drop (d0 :: ds').length =
      c4 :: (w4 ++ (("session".data) ++ (pl ++ ')' :: suffix))) := by
    show ((d0 :: ds') ++ (c4 :: (w4 ++ (("session".data) ++
      (pl ++ ')' :: suffix))))).drop (d0 :: ds').length = _
    exact List.drop_left _ _
  rw [hdrop]
  simp only [hc4, if_true]
  have hs3 : (c4 :: (w4 ++ (("session".data) ++ (pl ++ ')' :: suffix)))).dropWhile isPySpace =
      ("session".data) ++ (pl ++ ')' :: suffix) := by
    rw [List.dropWhile_cons]
    simp only [hc4, if_true]
    refine dropWhile_all_append h4a ?_
    show (('s' :: "ession".data) ++ (pl ++ ')' :: suffix)).dropWhile isPySpace = _
    rw [List.cons_append, dropWhile_cons_of_neg (by decide)]
  rw [hs3]
  rcases hp with rfl | rfl
  · have hpre : ("session)".data).isPrefixOf (("session".data) ++ ([] ++ ')' :: suffix)) = true := by
      rw [List.isPrefixOf_iff_prefix]
      exact ⟨suffix, rfl⟩
    simp [hpre]
  · have hpre : ("sessions)".data).isPrefixOf (("session".data) ++ (['s'] ++ ')' :: suffix)) = true := by
      rw [List.isPrefixOf_iff_prefix]
      exact ⟨suffix, rfl⟩
    simp [hpre]

/-- Claim C1 (amended): every string of the spec's shape — optional leading
whitespace, non-whitespace name, whitespace, `(`, optional whitespace,
digits, whitespace, `session` with optional `s`, `)` — parses to exactly
`(name, count)`, even with arbitrary trailing text after the `)`.  (The
parser does not reject every string outside the exact shape: the regex is
not right-anchored, and the whitespace between the name and the `(` and
after the `(` may also be empty.) -/
theorem parse_session_line_grammar (w1 name w2 w3 ds w4 pl suffix : List Char)
    (h1 : ∀ c ∈ w1, isPySpace c = true)
    (hn : name ≠ []) (hn2 : ∀ c ∈ name, isPySpace c = false)
    (h2 : w2 ≠ []) (h2a : ∀ c ∈ w2, isPySpace c = true)
    (h3 : ∀ c ∈ w3, isPySpace c = true)
    (hd : ds ≠ []) (hda : ∀ c ∈ ds, isPyDigit c = true)
    (h4 : w4 ≠ []) (h4a : ∀ c ∈ w4, isPySpace c = true)
    (hp : pl = [] ∨ pl = ['s']) :
    parseSessionLine
      (w1 ++ (name ++ (w2 ++ '(' :: (w3 ++ (ds ++ (w4 ++ (("session".data) ++ (pl ++ ')' :: suffix)))))))) =
      some (name, digitsToNat ds) := by
  obtain ⟨n0, name', rfl⟩ : ∃ n0 name', name = n0 :: name' := by
    cases name with
    | nil => exact absurd rfl hn
    | cons a b => exact ⟨a, b, rfl⟩
  obtain ⟨c2, w2', rfl⟩ : ∃ c2 w2', w2 = c2 :: w2' := by
    cases w2 with
    | nil => exact absurd rfl h2
    | cons a b => exact ⟨a, b, rfl⟩
  obtain ⟨d0, ds', rfl⟩ : ∃ d0 ds', ds = d0 :: ds' := by
    cases ds with
    | nil => exact absurd rfl hd
    | cons a b => exact ⟨a, b, rfl⟩
  obtain ⟨c4, w4', rfl⟩ : ∃ c4 w4', w4 = c4 :: w4' := by
    cases w4 with
    | nil => exact absurd rfl h4
    | cons a b => exact ⟨a, b, rfl⟩
  have hn0 : isPySpace n0 = false := hn2 n0 (by simp)
  -- strip the leading whitespace run w1
  have hcongr : parseSessionLine
      (w1 ++ ((n0 :: name') ++ ((c2 :: w2') ++ '(' :: (w3 ++ ((d0 :: ds') ++
        ((c4 :: w4') ++ (("session".data) ++ (pl ++ ')' :: suffix)))))))) =
      parseSessionLine
      ((n0 :: name') ++ ((c2 :: w2') ++ '(' :: (w3 ++ ((d0 :: ds') ++
        ((c4 :: w4') ++ (("session".data) ++ (pl ++ ')' :: suffix))))))) := by
    apply parseSessionLine_congr
    have hself : ((n0 :: name') ++ ((c2 :: w2') ++ '(' :: (w3 ++ ((d0 :: ds') ++
        ((c4 :: w4') ++ (("session".data) ++ (pl ++ ')' :: suffix))))))).dropWhile isPySpace =
        (n0 :: name') ++ ((c2 :: w2') ++ '(' :: (w3 ++ ((d0 :: ds') ++
        ((c4 :: w4') ++ (("session".data) ++ (pl ++ ')' :: suffix)))))) := by
      show (n0 :: (name' ++ ((c2 :: w2') ++ '(' :: (w3 ++ ((d0 :: ds') ++
        ((c4 :: w4') ++ (("session".data) ++ (pl ++ ')' :: suffix)))))))).dropWhile isPySpace = _
      rw [dropWhile_cons_of_neg hn0]
      rfl
    rw [dropWhile_all_append h1 hself, hself]
  rw [hcongr]
  unfold parseSessionLine
  set T := w3 ++ ((d0 :: ds') ++ ((c4 :: w4') ++ (("session".data) ++ (pl ++ ')' :: suffix))))
    with hT
  have hself : ((n0 :: name') ++ ((c2 :: w2') ++ '(' :: T)).dropWhile isPySpace =
      (n0 :: name') ++ ((c2 :: w2') ++ '(' :: T) := by
    show (n0 :: (name' ++ ((c2 :: w2') ++ '(' :: T))).dropWhile isPySpace = _
    rw [dropWhile_cons_of_neg hn0]
    rfl
  simp only [hself]
  have hrun : ((n0 :: name') ++ ((c2 :: w2') ++ '(' :: T)).takeWhile (fun c => !isPySpace c) =
      n0 :: name' := by
    refine takeWhile_all_append (fun x hx => by simp [hn2 x hx]) ?_
    simp [List.takeWhile_cons, h2a c2 (by simp)]
  rw [hrun]
  simp only [List.isEmpty_cons, Bool.false_eq_true, if_false]
  rw [List.drop_left]
  have hlen : (n0 :: name').length = name'.length + 1 := rfl
  rw [hlen, tryNames_succ]
  have hdropall : (n0 :: name').drop (name'.length + 1) = [] := by
    apply List.drop_eq_nil_of_le
    simp
  rw [hdropall]
  simp only [List.nil_append]
  have hmatch : matchAfterName ((c2 :: w2') ++ '(' :: T) = some (digitsToNat (d0 :: ds')) := by
    unfold matchAfterName
    have hdw : ((c2 :: w2') ++ '(' :: T).dropWhile isPySpace = '(' :: T :=
      dropWhile_all_append h2a (dropWhile_cons_of_neg (by decide))
    rw [hdw]
    simp only [if_pos rfl]
    rw [hT]
    simp only [List.cons_append]
    exact matchCountSuffix_spec w3 d0 ds' c4 w4' pl suffix h3 hda
      (h4a c4 (by simp)) (fun c hc => h4a c (by simp [hc])) hp
  rw [hmatch]
  have htake : (n0 :: name').take (name'.length + 1) = n0 :: name' := by
    apply List.take_of_length_le
    simp
  rw [htake]

theorem getLast?_or_some {a b : List Char} (h : b.getLast? = some ')') :
    (a ++ b).getLast? = some ')' := by
  rw [List.getLast?_append, h]
  rfl

/-- Every line of the spec's exact shape ends with a closing parenthesis. -/
theorem specLineShape_getLast {line name : List Char} {count : Nat}
    (h : specLineShape line name count) : line.getLast? = some ')' := by
  obtain ⟨w1, w2, w3, ds, w4, pl, h1, hn, hn2, h2, h2a, h3, hd, hda, h4, h4a, hp, hc, heq⟩ := h
  rw [heq]
  apply getLast?_or_some
  apply getLast?_or_some
  apply getLast?_or_some
  show (['('] ++ (w3 ++ (ds ++ (w4 ++ (("session".data) ++ (pl ++ [')'])))))).getLast? = some ')'
  apply getLast?_or_some
  apply getLast?_or_some
  apply getLast?_or_some
  apply getLast?_or_some
  apply getLast?_or_some
  apply getLast?_or_some
  rfl

/-- Claim C1 counterexample: the parser accepts the string
`"x (5 sessions)x"`, which has trailing text after the `)` and therefore is
not of the exact shape the claim describes, so the parser does not fail on
every string outside that shape. -/
theorem parse_session_line_not_anchored :
    parseSessionLine ("x (5 sessions)x".data) = some ("x".data, 5) ∧
    ¬ ∃ name count, specLineShape ("x (5 sessions)x".data) name count := by
  constructor
  · decide
  · rintro ⟨name, count, h⟩
    have h1 := specLineShape_getLast h
    have h2 : ("x (5 sessions)x".data).getLast? = some 'x' := by decide
    rw [h1] at h2
    exact absurd h2 (by decide)

/-- Witness for `parse_session_line_grammar` at the spec's own example
line. -/
theorem parse_session_line_grammar_witness :
    parseSessionLine ("  -Users-test-project (       5 sessions)".data) =
      some ("-Users-test-project".data, 5) := by
  have h := parse_session_line_grammar ("  ".data) ("-Users-test-project".data) (" ".data)
      ("       ".data) ("5".data) (" ".data) (['s']) ([])
      (by decide) (by decide) (by decide) (by decide) (by decide) (by decide)
      (by decide) (by decide) (by decide) (by decide) (Or.inr rfl)
  exact h

-- ## Data model

/-- `SessionMetadata` (dataclass).  Timestamps are opaque to this program:
`datetime.fromisoformat` is modeled as an oracle and its successful results
are carried around unchanged, so the parsed value is represented by an
abstract token of type `List Char`. -/
structure SessionMetadata where
  cwd : Option (List Char)
  last_modified : Option (List Char)
  total_messages : Int
deriving DecidableEq

/-- `ClaudeSession` (dataclass); `metadata` defaults to
`SessionMetadata(None, None)` (whose `total_messages` defaults to 0). -/
structure ClaudeSession where
  name : List Char
  path : List Char
  session_count : Nat
  metadata : SessionMetadata := ⟨none, none, 0⟩
deriving DecidableEq

/-- Python `str.replace(pat, rep)` with a non-empty pattern: scan left to
right, replacing each non-overlapping occurrence. -/
def replaceAll (pat rep : List Char) : List Char → List Char
  | [] => []
  | c :: cs =>
    if h : pat ≠ [] ∧ pat.isPrefixOf (c :: cs) then
      rep ++ replaceAll pat rep ((c :: cs).drop pat.length)
    else
      c :: replaceAll pat rep cs
termination_by l => l.length
decreasing_by
  · simp only [List.length_drop, List.length_cons]
    have : 1 ≤ pat.length := by
      cases hq : pat with
      | nil => exact absurd hq h.1
      | cons a b => simp
    omega
  · simp

/-- `ClaudeSession.display_name`:
`self.name.replace('-Users-tryk-', '~/').replace('-', '/')`. -/
def ClaudeSession.display_name (s : ClaudeSession) : List Char :=
  replaceAll ("-".data) ("/".data) (replaceAll ("-Users-tryk-".data) ("~/".data) s.name)

/-- `ClaudeSession.current_cwd`: `self.metadata.cwd or ""` (a `None` or an
empty working directory both give the empty string). -/
def ClaudeSession.current_cwd (s : ClaudeSession) : List Char :=
  match s.metadata.cwd with
  | some w => w
  | none => []

/-- Python `str.lower` on the ASCII range. -/
def pyLower (c : Char) : Char :=
  if 'A' ≤ c && c ≤ 'Z' then Char.ofNat (c.toNat + 32) else c

def lowerStr (s : List Char) : List Char := s.map pyLower

/-- Python's substring test `pat in hay`. -/
def containsSub (hay pat : List Char) : Bool :=
  (List.range (hay.length + 1)).any (fun i => pat.isPrefixOf (hay.drop i))

/-- Python `str.split()` (no separator): split on runs of whitespace,
producing no empty tokens. -/
def pySplitAux : List Char → List Char → List (List Char)
  | [], acc => if acc.isEmpty then [] else [acc.reverse]
  | c :: cs, acc =>
    if isPySpace c then
      if acc.isEmpty then pySplitAux cs [] else acc.reverse :: pySplitAux cs []
    else pySplitAux cs (c :: acc)

def pySplit (s : List Char) : List (List Char) := pySplitAux s []

/-- Python `str.strip()`: remove leading and trailing whitespace. -/
def pyStrip (s : List Char) : List Char :=
  ((s.dropWhile isPySpace).reverse.dropWhile isPySpace).reverse

/-- `SearchResult`: a scored session plus human-readable match notes.
The source field `matches` is renamed `found` here because `matches` is
reserved syntax in Lean. -/
structure SearchResult where
  session : ClaudeSession
  score : Nat
  found : List (List Char)
deriving DecidableEq

/-- One iteration of the keyword loop of `ClaudeManager.search_sessions`:
add 3 for a raw-name hit, 2 for a display-name hit, 1 for a
working-directory hit, recording a note for each hit. -/
def searchStep (s : ClaudeSession) (acc : Nat × List (List Char)) (kw : List Char) :
    Nat × List (List Char) :=
  let acc1 := if containsSub (lowerStr s.name) kw then
      (acc.1 + 3, acc.2 ++ [("name: ".data) ++ kw]) else acc
  let acc2 := if containsSub (lowerStr s.display_name) kw then
      (acc1.1 + 2, acc1.2 ++ [("display: ".data) ++ kw]) else acc1
  if containsSub (lowerStr s.current_cwd) kw then
    (acc2.1 + 1, acc2.2 ++ [("path: ".data) ++ kw]) else acc2

/-- The inner keyword loop of `ClaudeManager.search_sessions`, starting
from score 0 and no match notes. -/
def searchOne (keywords : List (List Char)) (s : ClaudeSession) : Nat × List (List Char) :=
  keywords.foldl (searchStep s) (0, [])

/-- The result list built by `search_sessions` before sorting: sessions in
registry order, scored, keeping only strictly positive scores. -/
def searchCandidates (sessions : List ClaudeSession) (keywords : List (List Char)) :
    List SearchResult :=
  sessions.filterMap (fun s =>
    let r := searchOne keywords s
    if 0 < r.1 then some ⟨s, r.1, r.2⟩ else none)

/-- `ClaudeManager.search_sessions`: empty/whitespace-only queries give an
empty result; otherwise score against the lower-cased whitespace-split
keywords and sort by score descending (`results.sort(reverse=True)` with
`SearchResult.__lt__` comparing scores — a stable descending sort). -/
def searchSessions (sessions : List ClaudeSession) (query : List Char) : List SearchResult :=
  if (pyStrip query).isEmpty then []
  else
    let keywords := pySplit (lowerStr query)
    (searchCandidates sessions keywords).mergeSort (fun a b => decide (b.score ≤ a.score))

/-- The per-token weight formula exactly as claim C2 states it (spec 4.5):
3 for a raw-name substring hit, 2 for a display-name hit, 1 for a
working-directory hit.  Spec-side definition, compared against the
implementation's accumulating loop. -/
def claimedTokenScore (s : ClaudeSession) (kw : List Char) : Nat :=
  (if containsSub (lowerStr s.name) kw then 3 else 0) +
  (if containsSub (lowerStr s.display_name) kw then 2 else 0) +
  (if containsSub (lowerStr s.current_cwd) kw then 1 else 0)

/-- Total claimed score: sum of the token weights over the whitespace-split
lower-cased query tokens. -/
def claimedScore (query : List Char) (s : ClaudeSession) : Nat :=
  ((pySplit (lowerStr query)).map (claimedTokenScore s)).sum

-- ## Search scorer lemmas (claims C2 and C3)

theorem searchStep_fst (s : ClaudeSession) (acc : Nat × List (List Char)) (kw : List Char) :
    (searchStep s acc kw).1 = acc.1 + claimedTokenScore s kw := by
  unfold searchStep claimedTokenScore
  by_cases h1 : containsSub (lowerStr s.name) kw = true <;>
  by_cases h2 : containsSub (lowerStr s.display_name) kw = true <;>
  by_cases h3 : containsSub (lowerStr s.current_cwd) kw = true <;>
    simp [h1, h2, h3]

theorem searchOne_foldl_fst (s : ClaudeSession) (kws : List (List Char)) :
    ∀ acc : Nat × List (List Char),
      (kws.foldl (searchStep s) acc).1 = acc.1 + (kws.map (claimedTokenScore s)).sum := by
  induction kws with
  | nil => intro acc; simp
  | cons kw kws ih =>
    intro acc
    simp only [List.foldl_cons, List.map_cons, List.sum_cons]
    rw [ih (searchStep s acc kw), searchStep_fst]
    omega

/-- The implementation's accumulating score loop computes exactly the sum
of per-token weights stated by the claim. -/
theorem searchOne_fst (kws : List (List Char)) (s : ClaudeSession) :
    (searchOne kws s).1 = (kws.map (claimedTokenScore s)).sum := by
  unfold searchOne
  rw [searchOne_foldl_fst]
  simp

theorem mem_searchCandidates {sessions : List ClaudeSession} {kws : List (List Char)}
    {r : SearchResult} (hr : r ∈ searchCandidates sessions kws) :
    r.session ∈ sessions ∧ r.score = (searchOne kws r.session).1 ∧ 0 < r.score := by
  unfold searchCandidates at hr
  obtain ⟨a, ha, hfa⟩ := List.mem_filterMap.mp hr
  by_cases hpos : 0 < (searchOne kws a).1
  · simp only [hpos, if_true, Option.some.injEq] at hfa
    subst hfa
    exact ⟨ha, rfl, hpos⟩
  · simp [hpos] at hfa

theorem countP_searchCandidates (kws : List (List Char)) (s : ClaudeSession) :
    ∀ sessions : List ClaudeSession,
      (searchCandidates sessions kws).countP (fun r => decide (r.session = s)) =
        if 0 < (searchOne kws s).1 then sessions.countP (fun x => decide (x = s)) else 0 := by
  intro sessions
  induction sessions with
  | nil =>
    simp only [searchCandidates, List.filterMap_nil, List.countP_nil]
    split <;> simp
  | cons a t ih =>
    simp only [searchCandidates, List.filterMap_cons] at ih ⊢
    by_cases hpos : 0 < (searchOne kws a).1
    · simp only [hpos, if_true]
      rw [List.countP_cons, ih, List.countP_cons]
      by_cases has : a = s
      · subst has
        simp [hpos]
      · have : (decide ((⟨a, (searchOne kws a).1, (searchOne kws a).2⟩ : SearchResult).session = s)) = false := by
          simp [has]
        simp [this, has]
    · simp only [hpos, if_false]
      rw [ih, List.countP_cons]
      by_cases has : a = s
      · subst has
        simp [hpos]
      · simp [has]

theorem countP_eq_one_of_nodup_mem {s : ClaudeSession} :
    ∀ {l : List ClaudeSession}, l.Nodup → s ∈ l →
      l.countP (fun x => decide (x = s)) = 1 := by
  intro l
  induction l with
  | nil => intro _ hs; simp at hs
  | cons a t ih =>
    intro hnd hs
    obtain ⟨hna, hnt⟩ := List.nodup_cons.mp hnd
    rw [List.countP_cons]
    rcases List.mem_cons.mp hs with rfl | hst
    · have hz : t.countP (fun x => decide (x = s)) = 0 := by
        rw [List.countP_eq_zero]
        intro x hx
        simp only [decide_eq_true_eq]
        intro hxa
        exact hna (hxa ▸ hx)
      simp [hz]
    · have hne : ¬(a = s) := fun h => hna (h ▸ hst)
      rw [ih hnt hst]
      simp [hne]

-- Facts about whitespace-only queries.

theorem pyLower_space {c : Char} (h : isPySpace c = true) : pyLower c = c := by
  simp only [isPySpace, Bool.or_eq_true, decide_eq_true_eq] at h
  rcases h with ((((h1 | h1) | h1) | h1) | h1) | h1 <;> (subst h1; decide)

theorem pySplitAux_all_space : ∀ {q : List Char}, (∀ c ∈ q, isPySpace c = true) →
    pySplitAux q [] = [] := by
  intro q
  induction q with
  | nil => intro _; rfl
  | cons c t ih =>
    intro h
    unfold pySplitAux
    simp only [h c (by simp), if_true, List.isEmpty_nil, if_true]
    exact ih (fun x hx => h x (by simp [hx]))

theorem dropWhile_space_all {q : List Char}
    (h : ∀ c ∈ q.dropWhile isPySpace, isPySpace c = true) :
    q.dropWhile isPySpace = [] := by
  induction q with
  | nil => rfl
  | cons c t ih =>
    by_cases hc : isPySpace c = true
    · rw [List.dropWhile_cons, if_pos hc] at h ⊢
      exact ih h
    · have hc2 : isPySpace c = false := by
        cases hq : isPySpace c
        · rfl
        · exact absurd hq hc
      rw [dropWhile_cons_of_neg hc2] at h
      exact absurd (h c (by simp)) hc

theorem all_space_of_pyStrip_empty {q : List Char} (h : (pyStrip q).isEmpty = true) :
    ∀ c ∈ q, isPySpace c = true := by
  unfold pyStrip at h
  rw [List.isEmpty_iff] at h
  have h2 : (q.dropWhile isPySpace).reverse.dropWhile isPySpace = [] := by
    have := congrArg List.reverse h
    simpa using this
  rw [List.dropWhile_eq_nil_iff] at h2
  have h3 : ∀ c ∈ q.dropWhile isPySpace, isPySpace c = true := by
    intro c hc
    exact h2 c (List.mem_reverse.mpr hc)
  have h4 : q.dropWhile isPySpace = [] := dropWhile_space_all h3
  rw [List.dropWhile_eq_nil_iff] at h4
  exact h4

theorem lowerStr_of_all_space {q : List Char} (hall : ∀ c ∈ q, isPySpace c = true) :
    lowerStr q = q := by
  unfold lowerStr
  induction q with
  | nil => rfl
  | cons c t ih =>
    simp only [List.map_cons]
    rw [pyLower_space (hall c (by simp)), ih (fun x hx => hall x (by simp [hx]))]

theorem pySplit_of_strip_empty {q : List Char} (h : (pyStrip q).isEmpty = true) :
    pySplit (lowerStr q) = [] := by
  have hall := all_space_of_pyStrip_empty h
  rw [lowerStr_of_all_space hall]
  exact pySplitAux_all_space hall

theorem searchCandidates_nil_keywords (sessions : List ClaudeSession) :
    searchCandidates sessions [] = [] := by
  induction sessions with
  | nil => rfl
  | cons a t ih =>
    simp only [searchCandidates, List.filterMap_cons] at ih ⊢
    simpa [searchOne] using ih

theorem searchLe_trans (a b c : SearchResult)
    (h1 : decide (b.score ≤ a.score) = true) (h2 : decide (c.score ≤ b.score) = true) :
    decide (c.score ≤ a.score) = true := by
  simp only [decide_eq_true_eq] at h1 h2 ⊢
  omega

theorem searchLe_total (a b : SearchResult) :
    (decide (b.score ≤ a.score) || decide (a.score ≤ b.score)) = true := by
  rcases Nat.le_total b.score a.score with h | h <;> simp [h]

/-- Claim C2: for every session of the registry and non-empty query, every
result carrying that session scores exactly the claimed sum of per-token
weights (3 for raw name, 2 for display name, 1 for working directory), and
the session appears exactly once when the total is positive and not at all
when it is zero. -/
theorem search_sessions_score (sessions : List ClaudeSession) (query : List Char)
    (s : ClaudeSession) (hq : query ≠ []) (hnd : sessions.Nodup) (hs : s ∈ sessions) :
    (∀ r ∈ searchSessions sessions query, r.session = s → r.score = claimedScore query s) ∧
    (searchSessions sessions query).countP (fun r => decide (r.session = s)) =
      (if 0 < claimedScore query s then 1 else 0) := by
  unfold searchSessions
  by_cases hstrip : (pyStrip query).isEmpty = true
  · have hz : claimedScore query s = 0 := by
      unfold claimedScore
      rw [pySplit_of_strip_empty hstrip]
      rfl
    rw [hz]
    simp [hstrip]
  · simp only [hstrip, if_false]
    have hperm := List.mergeSort_perm
      (searchCandidates sessions (pySplit (lowerStr query)))
      (fun a b => decide (b.score ≤ a.score))
    constructor
    · intro r hr hrs
      have hrc : r ∈ searchCandidates sessions (pySplit (lowerStr query)) :=
        hperm.mem_iff.mp hr
      obtain ⟨_, hscore, _⟩ := mem_searchCandidates hrc
      rw [hscore, hrs, searchOne_fst]
      rfl
    · simp only [Bool.false_eq_true, if_false]
      rw [hperm.countP_eq, countP_searchCandidates]
      have hcs : (searchOne (pySplit (lowerStr query)) s).1 = claimedScore query s := by
        rw [searchOne_fst]
        rfl
      rw [hcs]
      by_cases hpos : 0 < claimedScore query s
      · rw [if_pos hpos, if_pos hpos]
        exact countP_eq_one_of_nodup_mem hnd hs
      · rw [if_neg hpos, if_neg hpos]

/-- Witness for `search_sessions_score`: a one-session registry and the
query `"ab"` (the token scores 3 on the raw name and 2 on the display
name, total 5), so the session appears exactly once. -/
theorem search_sessions_score_witness :
    (∀ r ∈ searchSessions [⟨"ab".data, "/p".data, 1, ⟨none, none, 0⟩⟩] ("ab".data),
        r.session = ⟨"ab".data, "/p".data, 1, ⟨none, none, 0⟩⟩ →
        r.score = claimedScore ("ab".data) ⟨"ab".data, "/p".data, 1, ⟨none, none, 0⟩⟩) ∧
    (searchSessions [⟨"ab".data, "/p".data, 1, ⟨none, none, 0⟩⟩] ("ab".data)).countP
        (fun r => decide (r.session = ⟨"ab".data, "/p".data, 1, ⟨none, none, 0⟩⟩)) =
      (if 0 < claimedScore ("ab".data) ⟨"ab".data, "/p".data, 1, ⟨none, none, 0⟩⟩
        then 1 else 0) :=
  search_sessions_score [⟨"ab".data, "/p".data, 1, ⟨none, none, 0⟩⟩] ("ab".data)
    ⟨"ab".data, "/p".data, 1, ⟨none, none, 0⟩⟩
    (by decide) (by decide) (by simp)

theorem searchCandidates_map_session_sublist (kws : List (List Char)) :
    ∀ sessions : List ClaudeSession,
      ((searchCandidates sessions kws).map SearchResult.session).Sublist sessions := by
  intro sessions
  induction sessions with
  | nil => simp [searchCandidates]
  | cons a t ih =>
    simp only [searchCandidates, List.filterMap_cons] at ih ⊢
    by_cases hpos : 0 < (searchOne kws a).1
    · simp only [hpos, if_true, List.map_cons]
      exact List.Sublist.cons₂ a ih
    · simp only [hpos, if_false]
      exact List.Sublist.cons a ih

/-- Claim C3: search results are sorted by score descending (every earlier
result scores at least every later one); results with any fixed score
appear in exactly the order of the unsorted candidate list, which itself
lists sessions in registry order (its session projection is a sublist of
the registry). -/
theorem search_sessions_sorted_stable (sessions : List ClaudeSession) (query : List Char) :
    (searchSessions sessions query).Pairwise (fun a b => b.score ≤ a.score) ∧
    (∀ n : Nat, (searchSessions sessions query).filter (fun r => decide (r.score = n)) =
      (searchCandidates sessions (pySplit (lowerStr query))).filter
        (fun r => decide (r.score = n))) ∧
    ((searchCandidates sessions (pySplit (lowerStr query))).map SearchResult.session).Sublist
      sessions := by
  refine ⟨?_, ?_, searchCandidates_map_session_sublist _ _⟩
  · unfold searchSessions
    by_cases hstrip : (pyStrip query).isEmpty = true
    · simp [hstrip]
    · simp only [hstrip, if_false]
      have := @List.sorted_mergeSort SearchResult
        (fun a b : SearchResult => decide (b.score ≤ a.score))
        searchLe_trans searchLe_total
        (searchCandidates sessions (pySplit (lowerStr query)))
      exact this.imp (fun h => by simpa using h)
  · intro n
    unfold searchSessions
    by_cases hstrip : (pyStrip query).isEmpty = true
    · have hkw : pySplit (lowerStr query) = [] := pySplit_of_strip_empty hstrip
      rw [hkw, searchCandidates_nil_keywords]
      simp [hstrip]
    · simp only [hstrip, if_false]
      set cands := searchCandidates sessions (pySplit (lowerStr query)) with hcands
      set ms := cands.mergeSort (fun a b => decide (b.score ≤ a.score)) with hms
      set cf := cands.filter (fun r => decide (r.score = n)) with hcf
      have hallp : ∀ r ∈ cf, (fun r => decide (r.score = n)) r = true := by
        intro r hr
        exact (List.mem_filter.mp hr).2
      have hpw : cf.Pairwise (fun a b => decide (b.score ≤ a.score) = true) := by
        refine List.pairwise_of_forall_mem_list ?_
        intro a ha b hb
        have ha2 := hallp a ha
        have hb2 := hallp b hb
        simp only [decide_eq_true_eq] at ha2 hb2 ⊢
        omega
      have hsub : cf.Sublist cands := List.filter_sublist _
      have hsubms : cf.Sublist ms :=
        List.sublist_mergeSort searchLe_trans searchLe_total hpw hsub
      have hperm : (ms.filter (fun r => decide (r.score = n))).Perm cf :=
        (List.mergeSort_perm cands _).filter _
      have hcf2 : cf.filter (fun r => decide (r.score = n)) = cf :=
        List.filter_eq_self.mpr hallp
      have hsubf : cf.Sublist (ms.filter (fun r => decide (r.score = n))) := by
        have := hsubms.filter (fun r => decide (r.score = n))
        rwa [hcf2] at this
      have hlen : cf.length = (ms.filter (fun r => decide (r.score = n))).length :=
        (hperm.length_eq).symm
      exact (hsubf.eq_of_length hlen).symm

-- ## Command runner (claims C6 and C8)

/-- What the external process does on one invocation: the deadline expires,
the invocation itself raises (binary missing, I/O error — carrying the
exception text), or the process completes with an exit code, captured
output and captured error stream. -/
inductive CmOutcome where
  | timesOut : CmOutcome
  | raises : List Char → CmOutcome
  | completes : Int → List Char → List Char → CmOutcome
deriving DecidableEq

/-- Decimal rendering of a natural number, as Python's `str`. -/
def natRepr (n : Nat) : List Char := Nat.toDigits 10 n

/-- Decimal rendering of an integer, as Python's `str` (an f-string
`{returncode}`). -/
def intRepr (i : Int) : List Char :=
  if i < 0 then '-' :: natRepr i.natAbs else natRepr i.toNat

/-- `ClaudeManager.run_cm_command_async`: spawn
`create_subprocess_exec(cm_command, *args)` (argv is the command followed
by the arguments), wait with a timeout, and map the outcome:
timeout → `CommandExecutionError("Command timed out")`; non-zero exit →
`CommandExecutionError(f"Command failed with code {code}: {stderr}")`;
any exception → `CommandExecutionError(f"Command execution failed: {e}")`;
otherwise the captured standard output.  The process behavior is an oracle
over the argv. -/
def run_cm_command_async (behavior : List (List Char) → CmOutcome)
    (cm : List Char) (args : List (List Char)) : Except (List Char) (List Char) :=
  match behavior (cm :: args) with
  | .timesOut => .error ("Command timed out".data)
  | .raises msg => .error (("Command execution failed: ".data) ++ msg)
  | .completes code out err =>
    if code ≠ 0 then
      .error (("Command failed with code ".data) ++ (intRepr code ++ ((": ".data) ++ err)))
    else .ok out

/-- `ClaudeManager.run_cm_command`: the blocking variant via
`subprocess.run([cm_command] + args, capture_output=True, text=True,
timeout=...)` — the same argv — with the same outcome mapping:
`TimeoutExpired` → "Command timed out"; non-zero exit →
`f"Command failed with code {code}: {stderr}"`; any exception →
`f"Command execution failed: {e}"`; otherwise standard output. -/
def run_cm_command (behavior : List (List Char) → CmOutcome)
    (cm : List Char) (args : List (List Char)) : Except (List Char) (List Char) :=
  match behavior (cm :: args) with
  | .timesOut => .error ("Command timed out".data)
  | .raises msg => .error (("Command execution failed: ".data) ++ msg)
  | .completes code out err =>
    if code ≠ 0 then
      .error (("Command failed with code ".data) ++ (intRepr code ++ ((": ".data) ++ err)))
    else .ok out

/-- The two failure kinds of the spec's taxonomy (section 7). -/
inductive CmKind where
  | timeoutKind : CmKind
  | execFailedKind : CmKind
deriving DecidableEq

/-- How a caller distinguishes the failure kinds: the timeout failure is
exactly the message "Command timed out"; every other failure is an
execution failure. -/
def classifyCmError (m : List Char) : CmKind :=
  if m = ("Command timed out".data) then CmKind.timeoutKind else CmKind.execFailedKind

theorem classify_fail_msg (x : List Char) :
    classifyCmError (("Command failed with code ".data) ++ x) = CmKind.execFailedKind := by
  unfold classifyCmError
  rw [if_neg]
  intro h
  have hlen := congrArg List.length h
  rw [List.length_append] at hlen
  have h1 : ("Command failed with code ".data).length = 25 := by decide
  have h2 : ("Command timed out".data).length = 17 := by decide
  omega

theorem classify_raise_msg (x : List Char) :
    classifyCmError (("Command execution failed: ".data) ++ x) = CmKind.execFailedKind := by
  unfold classifyCmError
  rw [if_neg]
  intro h
  have hlen := congrArg List.length h
  rw [List.length_append] at hlen
  have h1 : ("Command execution failed: ".data).length = 26 := by decide
  have h2 : ("Command timed out".data).length = 17 := by decide
  omega

/-- Claim C6: the runner fails with the Timeout kind exactly when the
deadline expires; it fails with the ExecutionFailed kind exactly when the
process exits non-zero (and then the message is the exit code and the
captured error stream spliced into "Command failed with code ...") or the
invocation raises; otherwise it succeeds with the captured output.  The
two kinds are distinguishable by the caller from the returned error. -/
theorem run_cm_command_failure_kinds (behavior : List (List Char) → CmOutcome)
    (cm : List Char) (args : List (List Char)) :
    ((∃ m, run_cm_command_async behavior cm args = .error m ∧
        classifyCmError m = CmKind.timeoutKind) ↔
      behavior (cm :: args) = CmOutcome.timesOut) ∧
    ((∃ m, run_cm_command_async behavior cm args = .error m ∧
        classifyCmError m = CmKind.execFailedKind) ↔
      ((∃ em, behavior (cm :: args) = CmOutcome.raises em) ∨
        (∃ code out err, behavior (cm :: args) = CmOutcome.completes code out err ∧
          code ≠ 0))) ∧
    (∀ code out err, behavior (cm :: args) = CmOutcome.completes code out err →
      code ≠ 0 →
      run_cm_command_async behavior cm args =
        .error (("Command failed with code ".data) ++ (intRepr code ++ ((": ".data) ++ err)))) ∧
    (∀ out err, behavior (cm :: args) = CmOutcome.completes 0 out err →
      run_cm_command_async behavior cm args = .ok out) := by
  unfold run_cm_command_async
  cases hb : behavior (cm :: args) with
  | timesOut =>
    refine ⟨?_, ?_, ?_, ?_⟩
    · constructor
      · intro _; rfl
      · intro _
        refine ⟨("Command timed out".data), rfl, ?_⟩
        simp [classifyCmError]
    · constructor
      · rintro ⟨m, hm, hk⟩
        injection hm with hm2
        subst hm2
        simp [classifyCmError] at hk
      · rintro (⟨em, hem⟩ | ⟨code, out, err, hc, _⟩) <;> simp_all
    · intro code out err hc
      simp_all
    · intro out err hc
      simp_all
  | raises em =>
    refine ⟨?_, ?_, ?_, ?_⟩
    · constructor
      · rintro ⟨m, hm, hk⟩
        injection hm with hm2
        subst hm2
        rw [classify_raise_msg] at hk
        exact absurd hk (by simp)
      · intro hc
        simp at hc
    · constructor
      · intro _
        exact Or.inl ⟨em, rfl⟩
      · intro _
        exact ⟨_, rfl, classify_raise_msg em⟩
    · intro code out err hc
      simp_all
    · intro out err hc
      simp_all
  | completes code out err =>
    dsimp only
    by_cases hcode : code = 0
    · subst hcode
      refine ⟨?_, ?_, ?_, ?_⟩
      · simp
      · constructor
        · rintro ⟨m, hm, _⟩
          simp at hm
        · rintro (⟨em, hem⟩ | ⟨c2, o2, e2, hc2, hz⟩)
          · simp at hem
          · injection hc2 with h1 h2 h3
            exact absurd h1.symm hz
      · intro c2 o2 e2 hc2 hz
        injection hc2 with h1 h2 h3
        exact absurd h1.symm hz
      · intro o2 e2 hc2
        injection hc2 with h1 h2 h3
        subst h2
        simp
    · refine ⟨?_, ?_, ?_, ?_⟩
      · constructor
        · rintro ⟨m, hm, hk⟩
          rw [if_pos hcode] at hm
          injection hm with hm2
          subst hm2
          rw [classify_fail_msg] at hk
          exact absurd hk (by simp)
        · intro hc
          simp at hc
      · constructor
        · intro _
          exact Or.inr ⟨code, out, err, rfl, hcode⟩
        · intro _
          rw [if_pos hcode]
          exact ⟨_, rfl, classify_fail_msg _⟩
      · intro c2 o2 e2 hc2 hz
        injection hc2 with h1 h2 h3
        subst h1
        subst h2
        subst h3
        rw [if_pos hcode]
      · intro o2 e2 hc2
        injection hc2 with h1 h2 h3
        exact absurd h1 hcode
  
/-- Witness for `run_cm_command_failure_kinds`: a process that exits with
code 1 and error text "boom" yields the execution failure with the code
and the error stream in the message. -/
theorem run_cm_command_failure_kinds_witness :
    run_cm_command_async (fun _ => CmOutcome.completes 1 ("out".data) ("boom".data))
        ("cm".data) [("list".data)] =
      .error (("Command failed with code ".data) ++
        (intRepr 1 ++ ((": ".data) ++ ("boom".data)))) :=
  (run_cm_command_failure_kinds (fun _ => CmOutcome.completes 1 ("out".data) ("boom".data))
      ("cm".data) [("list".data)]).2.2.1 1 ("out".data) ("boom".data) rfl (by decide)

/-- Claim C8: the blocking and the suspending command runner have identical
semantics — for every command, argument list and process behavior they
return the same success value or the same failure message. -/
theorem run_cm_command_sync_async_eq (behavior : List (List Char) → CmOutcome)
    (cm : List Char) (args : List (List Char)) :
    run_cm_command behavior cm args = run_cm_command_async behavior cm args := by
  unfold run_cm_command run_cm_command_async
  rfl

-- ## Metadata reader (claims C5 and C10)

/-- A parsed JSON-lines object, restricted to the three fields the program
reads (the spec places the rest of the on-disk format out of scope).
`none` means the key is absent. -/
structure JsonObj where
  cwd : Option (List Char)
  timestamp : Option (List Char)
  message_count : Option Int
deriving DecidableEq

/-- `SessionMetadata.from_json_data`:
`cwd` is kept only when present and truthy (a present-but-empty string is
dropped, like an absent key); `timestamp` is parsed with
`datetime.fromisoformat` (an oracle here), a parse failure is swallowed;
`message_count` defaults to 0. -/
def SessionMetadata.from_json_data (fromIso : List Char → Option (List Char))
    (data : JsonObj) : SessionMetadata :=
  { cwd :=
      match data.cwd with
      | some w => if w.isEmpty then none else some w
      | none => none
    last_modified :=
      match data.timestamp with
      | some t => fromIso t
      | none => none
    total_messages :=
      match data.message_count with
      | some n => n
      | none => 0 }

/-- The line scan of `ClaudeManager._read_session_file`: the first line
whose raw text contains the substring `"cwd":` and that `json.loads` (an
oracle here) parses is decoded; a line that contains the marker but fails
to parse is skipped; no hit gives empty metadata. -/
def readLines (jsonLoads : List Char → Option JsonObj)
    (fromIso : List Char → Option (List Char)) : List (List Char) → SessionMetadata
  | [] => ⟨none, none, 0⟩
  | line :: rest =>
    if containsSub line ("\"cwd\":".data) then
      match jsonLoads line with
      | some data => SessionMetadata.from_json_data fromIso data
      | none => readLines jsonLoads fromIso rest
    else readLines jsonLoads fromIso rest

/-- `ClaudeManager._read_session_file`: any read error (the `Except.error`
input) is absorbed into empty metadata by the outer `except`; otherwise
the file's lines are scanned. -/
def read_session_file (jsonLoads : List Char → Option JsonObj)
    (fromIso : List Char → Option (List Char))
    (file : Except Unit (List (List Char))) : SessionMetadata :=
  match file with
  | .error _ => ⟨none, none, 0⟩
  | .ok lines => readLines jsonLoads fromIso lines

/-- Lines that contain no parseable `"cwd":` hit are skipped. -/
theorem readLines_skip (jsonLoads : List Char → Option JsonObj)
    (fromIso : List Char → Option (List Char)) :
    ∀ pre t, (∀ l ∈ pre, containsSub l ("\"cwd\":".data) = false ∨ jsonLoads l = none) →
      readLines jsonLoads fromIso (pre ++ t) = readLines jsonLoads fromIso t := by
  intro pre
  induction pre with
  | nil => intro t _; rfl
  | cons l pre ih =>
    intro t h
    rw [List.cons_append]
    have hstep : readLines jsonLoads fromIso (l :: (pre ++ t)) =
        if containsSub l ("\"cwd\":".data) = true then
          (match jsonLoads l with
            | some data => SessionMetadata.from_json_data fromIso data
            | none => readLines jsonLoads fromIso (pre ++ t))
        else readLines jsonLoads fromIso (pre ++ t) := rfl
    rw [hstep]
    rcases h l (by simp) with hc | hj
    · rw [hc]
      simp only [Bool.false_eq_true, if_false]
      exact ih t (fun x hx => h x (by simp [hx]))
    · by_cases hcc : containsSub l ("\"cwd\":".data) = true
      · rw [if_pos hcc, hj]
        exact ih t (fun x hx => h x (by simp [hx]))
      · rw [if_neg hcc]
        exact ih t (fun x hx => h x (by simp [hx]))

/-- Claim C5: the metadata reader is total — a read failure or a file in
which no candidate line parses yields empty metadata rather than an error —
and on the spec's scenario line
`{"cwd": "/a/b", "timestamp": "not-a-date", "message_count": 7}` it
returns working directory `/a/b`, no last-modified timestamp (the string
is not ISO-8601), and 7 messages. -/
theorem read_session_file_total_and_scenario
    (jsonLoads : List Char → Option JsonObj) (fromIso : List Char → Option (List Char)) :
    (read_session_file jsonLoads fromIso (.error ()) = ⟨none, none, 0⟩) ∧
    (∀ lines, (∀ l ∈ lines, containsSub l ("\"cwd\":".data) = false ∨ jsonLoads l = none) →
      read_session_file jsonLoads fromIso (.ok lines) = ⟨none, none, 0⟩) ∧
    (∀ line rest,
      containsSub line ("\"cwd\":".data) = true →
      jsonLoads line = some ⟨some ("/a/b".data), some ("not-a-date".data), some 7⟩ →
      fromIso ("not-a-date".data) = none →
      read_session_file jsonLoads fromIso (.ok (line :: rest)) =
        ⟨some ("/a/b".data), none, 7⟩) := by
  refine ⟨rfl, ?_, ?_⟩
  · intro lines h
    show readLines jsonLoads fromIso lines = ⟨none, none, 0⟩
    have := readLines_skip jsonLoads fromIso lines [] h
    rw [List.append_nil] at this
    rw [this]
    rfl
  · intro line rest hc hj hiso
    show readLines jsonLoads fromIso (line :: rest) = _
    unfold readLines
    rw [hc, hj]
    simp only [if_true]
    unfold SessionMetadata.from_json_data
    dsimp only
    dsimp only at hiso
    rw [hiso]
    rfl

/-- Witness for `read_session_file_total_and_scenario`: concrete oracles
behaving like `json.loads` and `datetime.fromisoformat` on the scenario
line. -/
theorem read_session_file_scenario_witness :
    read_session_file
      (fun l => if l = ("\x7b\"cwd\": \"/a/b\", \"timestamp\": \"not-a-date\", \"message_count\": 7\x7d".data)
        then some ⟨some ("/a/b".data), some ("not-a-date".data), some 7⟩ else none)
      (fun _ => none)
      (.ok [("\x7b\"cwd\": \"/a/b\", \"timestamp\": \"not-a-date\", \"message_count\": 7\x7d".data)]) =
      ⟨some ("/a/b".data), none, 7⟩ :=
  (read_session_file_total_and_scenario
      (fun l => if l = ("\x7b\"cwd\": \"/a/b\", \"timestamp\": \"not-a-date\", \"message_count\": 7\x7d".data)
        then some ⟨some ("/a/b".data), some ("not-a-date".data), some 7⟩ else none)
      (fun _ => none)).2.2
    ("\x7b\"cwd\": \"/a/b\", \"timestamp\": \"not-a-date\", \"message_count\": 7\x7d".data) []
    (by decide) (by decide) rfl

/-- Claim C10: the scan stops at the first line that contains the raw
substring `"cwd":` and parses as JSON, even if the parsed object has no
(or an empty) `cwd` value: the working directory comes out absent while
the timestamp and message count are still taken from that same object, and
the remaining lines (`rest`) never influence the result. -/
theorem read_session_file_first_hit_no_cwd
    (jsonLoads : List Char → Option JsonObj) (fromIso : List Char → Option (List Char))
    (pre : List (List Char)) (line : List Char) (rest : List (List Char)) (data : JsonObj)
    (hpre : ∀ l ∈ pre, containsSub l ("\"cwd\":".data) = false ∨ jsonLoads l = none)
    (hc : containsSub line ("\"cwd\":".data) = true)
    (hj : jsonLoads line = some data)
    (hcwd : data.cwd = none ∨ data.cwd = some []) :
    read_session_file jsonLoads fromIso (.ok (pre ++ line :: rest)) =
      ⟨none,
        (match data.timestamp with | some t => fromIso t | none => none),
        (match data.message_count with | some n => n | none => 0)⟩ := by
  show readLines jsonLoads fromIso (pre ++ line :: rest) = _
  rw [readLines_skip jsonLoads fromIso pre (line :: rest) hpre]
  unfold readLines
  rw [hc, hj]
  simp only [if_true]
  unfold SessionMetadata.from_json_data
  rcases hcwd with h | h <;> rw [h] <;> rfl

/-- Witness for `read_session_file_first_hit_no_cwd`: a line whose text
contains `"cwd":` only inside another value, parsing to an object with no
`cwd` key but with a timestamp and a count, preceded by a line that does
not parse. -/
theorem read_session_file_first_hit_witness :
    read_session_file
      (fun l => if l = ("\x7b\"note\": \"x\", \"cwd\":\"\", \"message_count\": 5\x7d".data)
        then some ⟨some [], some ("2024-01-01".data), some 5⟩ else none)
      (fun t => if t = ("2024-01-01".data) then some ("2024-01-01".data) else none)
      (.ok [("garbage \"cwd\": here".data),
            ("\x7b\"note\": \"x\", \"cwd\":\"\", \"message_count\": 5\x7d".data),
            ("\x7b\"cwd\": \"/real\"\x7d".data)]) =
      ⟨none, some ("2024-01-01".data), 5⟩ := by
  have h := read_session_file_first_hit_no_cwd
    (fun l => if l = ("\x7b\"note\": \"x\", \"cwd\":\"\", \"message_count\": 5\x7d".data)
      then some ⟨some [], some ("2024-01-01".data), some 5⟩ else none)
    (fun t => if t = ("2024-01-01".data) then some ("2024-01-01".data) else none)
    [("garbage \"cwd\": here".data)]
    ("\x7b\"note\": \"x\", \"cwd\":\"\", \"message_count\": 5\x7d".data)
    [("\x7b\"cwd\": \"/real\"\x7d".data)]
    ⟨some [], some ("2024-01-01".data), some 5⟩
    (by intro l hl; right; simp at hl; subst hl; decide)
    (by decide) (by decide) (Or.inr rfl)
  exact h

-- ## Migration pre-check (claim C4)

/-- The exception raised inside `SessionValidator.is_valid_working_directory`
when it evaluates `os.path.expanduser`: the module imports `os` only inside
`ClaudeManagerConfig.from_environment` (a function-local import), so at
module scope the name `os` is unbound and the lookup raises
`NameError("name 'os' is not defined")`. -/
inductive PyExc where
  | nameErrorOs : PyExc
deriving DecidableEq

def pyExcMsg : PyExc → List Char
  | .nameErrorOs => ("name \x27os\x27 is not defined".data)

/-- `SessionValidator.is_valid_working_directory` as the module actually
executes: the empty string returns `True` before anything else is
evaluated; every non-empty value reaches `os.path.expanduser(value)`,
which raises `NameError` because the module never imports `os` at top
level (the intended directory check `Path(expanded).is_dir()` is never
reached, so no filesystem oracle appears here). -/
def is_valid_working_directory (value : List Char) : Except PyExc Bool :=
  if value = [] then .ok true
  else .error PyExc.nameErrorOs

/-- `ClaudeManager.migrate_session_async`: validate the destination, then
run `cm migrate <current_cwd> <new_path> <session_path>`.  Any exception —
including the validator's `NameError` — is caught by the outer handler and
reported as `SessionMigrationError(f"Migration failed: {e}")`.  The second
component records the argument lists passed to the command runner (the
reload that follows a successful migration is outside this claim and not
recorded). -/
def migrate_session_async (behavior : List (List Char) → CmOutcome) (cm : List Char)
    (session : ClaudeSession) (new_path : List Char) :
    Except (List Char) Unit × List (List (List Char)) :=
  match is_valid_working_directory new_path with
  | .error e => (.error (("Migration failed: ".data) ++ pyExcMsg e), [])
  | .ok valid =>
    if valid = false then (.error (("Invalid new path: ".data) ++ new_path), [])
    else
      let args := [("migrate".data), session.current_cwd, new_path, session.path]
      match run_cm_command_async behavior cm args with
      | .error e => (.error (("Migration command failed: ".data) ++ e), [args])
      | .ok _ => (.ok (), [args])

/-- Claim C4 (code bug): for EVERY non-empty destination — in particular
for an existing directory, where the claim and the spec say the pre-check
passes and the external command is invoked — the migration fails with
`Migration failed: name 'os' is not defined` and the command runner is
never called, because the module never imports `os`; only the empty
destination reaches the command, with arguments
`['migrate', current_cwd, '', session_path]`. -/
theorem migrate_session_async_os_bug :
    (∀ behavior cm session new_path, new_path ≠ [] →
      (migrate_session_async behavior cm session new_path).2 = [] ∧
      (migrate_session_async behavior cm session new_path).1 =
        .error (("Migration failed: ".data) ++ ("name \x27os\x27 is not defined".data))) ∧
    (∀ behavior cm session,
      (migrate_session_async behavior cm session []).2 =
        [[("migrate".data), session.current_cwd, [], session.path]]) := by
  constructor
  · intro behavior cm session new_path hne
    unfold migrate_session_async is_valid_working_directory
    rw [if_neg hne]
    exact ⟨rfl, rfl⟩
  · intro behavior cm session
    unfold migrate_session_async is_valid_working_directory
    rw [if_pos rfl]
    dsimp only
    cases run_cm_command_async behavior cm
        [("migrate".data), session.current_cwd, [], session.path] with
    | error e => rfl
    | ok v => rfl

/-- Witness for `migrate_session_async_os_bug`: migrating to `/tmp` (an
existing directory on any relevant system) with a process oracle that
would succeed; the command is still never invoked. -/
theorem migrate_session_async_os_bug_witness :
    (migrate_session_async (fun _ => CmOutcome.completes 0 [] []) ("cm".data)
        ⟨("n".data), ("/p".data), 1, ⟨none, none, 0⟩⟩ ("/tmp".data)).2 = [] ∧
    (migrate_session_async (fun _ => CmOutcome.completes 0 [] []) ("cm".data)
        ⟨("n".data), ("/p".data), 1, ⟨none, none, 0⟩⟩ ("/tmp".data)).1 =
      .error (("Migration failed: ".data) ++ ("name \x27os\x27 is not defined".data)) :=
  migrate_session_async_os_bug.1 (fun _ => CmOutcome.completes 0 [] [])
    ("cm".data) ⟨("n".data), ("/p".data), 1, ⟨none, none, 0⟩⟩ ("/tmp".data) (by decide)

-- ## Session loading (claims C7 and C9)

/-- Registry state: the session list and the name index
(`_session_cache`, a dict comprehension — for duplicate names the Python
dict keeps the last binding). -/
structure ManagerState where
  sessions : List ClaudeSession
  session_cache : List (List Char × ClaudeSession)
deriving DecidableEq

/-- `ClaudeManager._update_session_cache`:
`{session.name: session for session in self.sessions}`. -/
def update_session_cache (l : List ClaudeSession) : List (List Char × ClaudeSession) :=
  l.map (fun s => (s.name, s))

/-- Python `output.split('\n')`: split on every newline, keeping empty
pieces. -/
def splitOnNl (s : List Char) : List (List Char) :=
  s.foldr
    (fun c acc =>
      match acc with
      | a :: rest => if c = '\n' then [] :: (a :: rest) else (c :: a) :: rest
      | [] => [])
    [[]]

/-- `str(self.config.claude_dir / name)` for the names the parser
produces: pathlib joins with a separator, except that an absolute right
operand replaces the root. -/
def joinPath (root q : List Char) : List Char :=
  if q.head? = some '/' then q else root ++ '/' :: q

/-- `ClaudeManager._parse_session_line`: regex match, the
`is_valid_session_name` guard (non-empty after strip), and session
construction.  `int()` on the regex's digit group cannot fail, and the
caller only distinguishes success from failure, so the error payloads are
dropped. -/
def parse_session_line (claude_dir line : List Char) : Option ClaudeSession :=
  match parseSessionLine line with
  | none => none
  | some (name, count) =>
    if (pyStrip name).isEmpty then none
    else some ⟨name, joinPath claude_dir name, count, ⟨none, none, 0⟩⟩

/-- The parsing stage of `load_sessions_async`: every output line
containing the substring `sessions)` is fed to the line parser; all other
lines, and lines that fail to parse, are dropped. -/
def parsedSessions (claude_dir output : List Char) : List ClaudeSession :=
  (splitOnNl output).filterMap (fun line =>
    if containsSub line ("sessions)".data) then parse_session_line claude_dir line else none)

/-- `ClaudeManager._load_sessions_metadata`: the bounded-concurrency
`asyncio.gather` returns results in submission order, so it is an
order-preserving map; a per-session metadata failure (`metaOf` returning
`none`) keeps the original record. -/
def enrichSessions (metaOf : ClaudeSession → Option SessionMetadata)
    (l : List ClaudeSession) : List ClaudeSession :=
  l.map (fun s =>
    match metaOf s with
    | some m => { s with metadata := m }
    | none => s)

/-- `ClaudeManager.load_sessions_async`: run `cm list` (failure aborts and
leaves the state untouched), parse, enrich (the source skips enrichment
for an empty list, which coincides with mapping over the empty list), then
replace `self.sessions` and rebuild the cache. -/
def load_sessions_async (behavior : List (List Char) → CmOutcome) (cm claude_dir : List Char)
    (metaOf : ClaudeSession → Option SessionMetadata) (st : ManagerState) :
    Except (List Char) (List ClaudeSession) × ManagerState :=
  match run_cm_command_async behavior cm [("list".data)] with
  | .error e => (.error (("Failed to list sessions: ".data) ++ e), st)
  | .ok output =>
    let enriched := enrichSessions metaOf (parsedSessions claude_dir output)
    (.ok enriched, ⟨enriched, update_session_cache enriched⟩)

/-- Claim C7: a load cycle is atomic — on failure the previous registry
snapshot (session list and name index) is completely unchanged, and on
success both are replaced wholesale by the newly built list. -/
theorem load_sessions_atomic (behavior : List (List Char) → CmOutcome)
    (cm claude_dir : List Char) (metaOf : ClaudeSession → Option SessionMetadata)
    (st : ManagerState) :
    (∀ e st2, load_sessions_async behavior cm claude_dir metaOf st = (.error e, st2) →
      st2 = st) ∧
    (∀ l st2, load_sessions_async behavior cm claude_dir metaOf st = (.ok l, st2) →
      st2.sessions = l ∧ st2.session_cache = update_session_cache l) := by
  unfold load_sessions_async
  cases run_cm_command_async behavior cm [("list".data)] with
  | error e =>
    constructor
    · intro e2 st2 h
      rw [Prod.mk.injEq] at h
      exact h.2.symm
    · intro l st2 h
      rw [Prod.mk.injEq] at h
      exact Except.noConfusion h.1
  | ok output =>
    constructor
    · intro e2 st2 h
      rw [Prod.mk.injEq] at h
      exact Except.noConfusion h.1
    · intro l st2 h
      rw [Prod.mk.injEq] at h
      obtain ⟨h1, h2⟩ := h
      injection h1 with h1
      subst h1
      rw [← h2]
      exact ⟨rfl, rfl⟩

/-- Witness for `load_sessions_atomic`: a timed-out `list` command leaves
the empty snapshot unchanged. -/
theorem load_sessions_atomic_witness :
    (ManagerState.mk [] [] : ManagerState) = ManagerState.mk [] [] :=
  (load_sessions_atomic (fun _ => CmOutcome.timesOut) ("cm".data) [] (fun _ => none)
      (ManagerState.mk [] [])).1
    (("Failed to list sessions: ".data) ++ ("Command timed out".data))
    (ManagerState.mk [] []) rfl

/-- Claim C9 counterexample: the loader performs no deduplication, so a
`list` output repeating a name (here `a` on two lines) produces a registry
snapshot with two sessions of the same name. -/
theorem load_sessions_duplicate_names :
    ((load_sessions_async
        (fun _ => CmOutcome.completes 0 (("a (1 sessions)\na (2 sessions)").data) [])
        ("cm".data) [] (fun _ => none) (ManagerState.mk [] [])).2.sessions.map
          ClaudeSession.name) = [("a".data), ("a".data)] ∧
    ¬ (((load_sessions_async
        (fun _ => CmOutcome.completes 0 (("a (1 sessions)\na (2 sessions)").data) [])
        ("cm".data) [] (fun _ => none) (ManagerState.mk [] [])).2.sessions.map
          ClaudeSession.name).Nodup) := by
  constructor
  · decide
  · decide

theorem enrichSessions_map_name (metaOf : ClaudeSession → Option SessionMetadata)
    (l : List ClaudeSession) :
    (enrichSessions metaOf l).map ClaudeSession.name = l.map ClaudeSession.name := by
  unfold enrichSessions
  rw [List.map_map]
  apply List.map_congr_left
  intro s _
  show (match metaOf s with
    | some m => { s with metadata := m }
    | none => s).name = s.name
  cases metaOf s <;> rfl

theorem parsedSessions_name_ne_nil {claude_dir output : List Char} {s : ClaudeSession}
    (hs : s ∈ parsedSessions claude_dir output) : s.name ≠ [] := by
  unfold parsedSessions at hs
  obtain ⟨line, _, hline⟩ := List.mem_filterMap.mp hs
  by_cases hc : containsSub line ("sessions)".data) = true
  · rw [if_pos hc] at hline
    unfold parse_session_line at hline
    cases hp : parseSessionLine line with
    | none => rw [hp] at hline; exact Option.noConfusion hline
    | some nc =>
      rw [hp] at hline
      obtain ⟨name, count⟩ := nc
      dsimp only at hline
      by_cases hstrip : (pyStrip name).isEmpty = true
      · rw [if_pos hstrip] at hline
        exact Option.noConfusion hline
      · rw [if_neg hstrip] at hline
        injection hline with hline
        subst hline
        intro hn
        have hn2 : name = [] := hn
        rw [hn2] at hstrip
        exact hstrip rfl
  · rw [if_neg hc] at hline
    exact Option.noConfusion hline

/-- Claim C9 (amended): in every snapshot produced by a completed load,
every session name is non-empty, and the snapshot's names are exactly the
successfully parsed names of the list output in order — the loader
deduplicates nothing, so the names are unique exactly when the parsed
lines already carry pairwise-distinct names. -/
theorem load_sessions_name_invariant (behavior : List (List Char) → CmOutcome)
    (cm claude_dir : List Char) (metaOf : ClaudeSession → Option SessionMetadata)
    (st : ManagerState) (l : List ClaudeSession) (st2 : ManagerState)
    (h : load_sessions_async behavior cm claude_dir metaOf st = (.ok l, st2)) :
    (∀ s ∈ l, s.name ≠ []) ∧
    (∃ output, run_cm_command_async behavior cm [("list".data)] = .ok output ∧
      l.map ClaudeSession.name = (parsedSessions claude_dir output).map ClaudeSession.name ∧
      (((parsedSessions claude_dir output).map ClaudeSession.name).Nodup ↔
        (l.map ClaudeSession.name).Nodup)) := by
  unfold load_sessions_async at h
  cases hrun : run_cm_command_async behavior cm [("list".data)] with
  | error e =>
    rw [hrun] at h
    rw [Prod.mk.injEq] at h
    exact Except.noConfusion h.1
  | ok output =>
    rw [hrun] at h
    rw [Prod.mk.injEq] at h
    obtain ⟨h1, _⟩ := h
    injection h1 with h1
    subst h1
    refine ⟨?_, output, rfl, enrichSessions_map_name metaOf _, by
      rw [enrichSessions_map_name metaOf _]⟩
    intro s hs
    unfold enrichSessions at hs
    obtain ⟨s0, hs0, hmap⟩ := List.mem_map.mp hs
    have hname : s.name = s0.name := by
      rw [← hmap]
      cases metaOf s0 <;> rfl
    rw [hname]
    exact parsedSessions_name_ne_nil hs0

/-- Witness for `load_sessions_name_invariant`: a successful load from the
single line `a (2 sessions)` has the non-empty name `a`. -/
theorem load_sessions_name_invariant_witness :
    (∀ s ∈ (load_sessions_async (fun _ => CmOutcome.completes 0 (("a (2 sessions)").data) [])
          ("cm".data) [] (fun _ => none) (ManagerState.mk [] [])).2.sessions, s.name ≠ []) ∧
    (∃ output, run_cm_command_async (fun _ => CmOutcome.completes 0 (("a (2 sessions)").data) [])
        ("cm".data) [("list".data)] = .ok output ∧
      (load_sessions_async (fun _ => CmOutcome.completes 0 (("a (2 sessions)").data) [])
          ("cm".data) [] (fun _ => none) (ManagerState.mk [] [])).2.sessions.map
            ClaudeSession.name =
        (parsedSessions [] output).map ClaudeSession.name ∧
      (((parsedSessions [] output).map ClaudeSession.name).Nodup ↔
        ((load_sessions_async (fun _ => CmOutcome.completes 0 (("a (2 sessions)").data) [])
          ("cm".data) [] (fun _ => none) (ManagerState.mk [] [])).2.sessions.map
            ClaudeSession.name).Nodup)) :=
  load_sessions_name_invariant (fun _ => CmOutcome.completes 0 (("a (2 sessions)").data) [])
    ("cm".data) [] (fun _ => none) (ManagerState.mk [] [])
    ((load_sessions_async (fun _ => CmOutcome.completes 0 (("a (2 sessions)").data) [])
        ("cm".data) [] (fun _ => none) (ManagerState.mk [] [])).2.sessions)
    ((load_sessions_async (fun _ => CmOutcome.completes 0 (("a (2 sessions)").data) [])
        ("cm".data) [] (fun _ => none) (ManagerState.mk [] [])).2) rfl
